import Mathlib

/-!
Verification of the integer input dialog (`src/input_dialog.c`).

The program is a single-function raw-terminal dialog: a `while (1)` loop reads
one character at a time, classifies it (escape, return, delete `'d'`, digit,
other), edits a bounded digit buffer, and exits with either a confirmed
integer (parsed with `atoi`) or a cancellation.

The embedding below models the loop body as a pure step function on the
logical buffer (the first `n_input_chars` cells of `input_buffer`, which the
code alone ever reads), the loop as structural recursion over the finite list
of characters delivered by `getchar`, and the whole call as a function from
the input stream to the outcome `(ret_val, *input_ptr)`.  Machine integers are
modelled as `Nat`/`Int` with explicit reduction mod `2 ^ 32` where the C code
stores into 32-bit quantities.
-/

namespace InputDialog

/-- `INPUT_BUFFER_MAX_LEN` (line 24 of `src/input_dialog.c`): the size in
bytes of the `input_buffer` array, and the bound used by the append guard
`n_input_chars < INPUT_BUFFER_MAX_LEN` at line 147. -/
def INPUT_BUFFER_MAX_LEN : Nat := 11

/-- C `isdigit` (line 134): true exactly on the ASCII decimal digits. -/
def isdigit (c : Char) : Bool := '0' ≤ c && c ≤ '9'

/-- Outcome of one execution of the loop body (lines 113-160) on one
character: either the loop continues with a new buffer, having sounded
`alerts` alert sounds in this iteration, or it breaks out via RETURN
(`confirm`, line 129) or via ESCAPE (`cancel`, lines 117-120). -/
inductive StepResult where
  | cont (buf : List Char) (alerts : Nat)
  | confirm (buf : List Char)
  | cancel (buf : List Char)
deriving DecidableEq, Repr

/-- One iteration of the input loop of `show_int_input_dialog`
(lines 113-160).  `buf` is the logical buffer: the first `n_input_chars`
characters of `input_buffer`.  Control flow mirrors the C body:
escape check first (line 117), then the RETURN check (lines 123-131, an
alert but no break when the buffer is empty), then the non-digit branch
(lines 134-145: `'d'` deletes the last digit or alerts on an empty buffer,
every other non-digit alerts), then the digit branch (lines 146-152: append
while `n_input_chars < INPUT_BUFFER_MAX_LEN`, otherwise alert). -/
def processChar (buf : List Char) (c : Char) : StepResult :=
  if c = '\x1b' then
    .cancel buf
  else
    -- the alert sound of line 127: RETURN with an empty buffer falls through
    let alerts1 : Nat := if c = '\n' && buf.isEmpty then 1 else 0
    if c = '\n' && !buf.isEmpty then
      .confirm buf
    else
      if !(isdigit c) then
        if c = 'd' then
          if !buf.isEmpty then .cont buf.dropLast alerts1
          else .cont buf (alerts1 + 1)
        else .cont buf (alerts1 + 1)
      else
        if buf.length < INPUT_BUFFER_MAX_LEN then .cont (buf ++ [c]) alerts1
        else .cont buf (alerts1 + 1)

/-- How the `while (1)` loop can stand after consuming a finite prefix of the
input stream: still waiting on `getchar` (`pending`), broken out via RETURN
(`confirmed`), or broken out via ESCAPE (`cancelled`). -/
inductive LoopOut where
  | pending (buf : List Char)
  | confirmed (buf : List Char)
  | cancelled (buf : List Char)
deriving DecidableEq, Repr

/-- The `while (1)` loop (lines 113-160) run on a finite list of input
characters, starting from buffer `buf` (the dialog starts it at `[]`,
line 93: `n_input_chars = 0`). -/
def runLoop : List Char → List Char → LoopOut
  | [], buf => .pending buf
  | c :: rest, buf =>
    match processChar buf c with
    | .cont buf' _ => runLoop rest buf'
    | .confirm b => .confirmed b
    | .cancel b => .cancelled b

/-- Standard positional decimal value of a digit string, as a natural
number. -/
def digitsVal (l : List Char) : Nat :=
  l.foldl (fun n c => 10 * n + (c.toNat - 48)) 0

/-- Model of `atoi(input_buffer)` at line 167 on the digit-only buffer, as
stored into the 32-bit `int32_t *input_ptr`: the decimal value reduced
mod `2 ^ 32` and read back as a two's-complement signed integer (the
behaviour of `atoi = (int) strtol` on the reference ILP32/LP64 platform). -/
def atoi32 (l : List Char) : Int :=
  if digitsVal l % 2 ^ 32 < 2 ^ 31 then ((digitsVal l % 2 ^ 32 : Nat) : Int)
  else ((digitsVal l % 2 ^ 32 : Nat) : Int) - 2 ^ 32

/-- The observable outcome of `show_int_input_dialog` on a finite input
stream: `some (true, v)` when the loop breaks via RETURN and `*input_ptr`
receives `atoi` of the buffer (lines 165-167, return value 1), `some
(false, 0)` when it breaks via ESCAPE (lines 168-173, return value 0), and
`none` when the input list is exhausted while the loop still blocks on
`getchar`. -/
def show_int_input_dialog (input : List Char) : Option (Bool × Int) :=
  match runLoop input [] with
  | .pending _ => none
  | .confirmed buf => some (true, atoi32 buf)
  | .cancelled _ => some (false, 0)

/-- Linux `termios` flag `ICANON` (octal 02). -/
def ICANON : Nat := 2

/-- Linux `termios` flag `ECHO` (octal 010). -/
def ECHO : Nat := 8

/-- Linux `termios` flag `ISIG` (octal 01). -/
def ISIG : Nat := 1

/-- `NEW_TERM_ATTRIBS_MASK` (line 33): `~ICANON & ~ECHO & ~ISIG` on the
32-bit `c_lflag` word. -/
def NEW_TERM_ATTRIBS_MASK : Nat := 2 ^ 32 - 1 - (ICANON ||| ECHO ||| ISIG)

/-- The arguments of the `tcsetattr` calls a terminating invocation of
`show_int_input_dialog` performs, in order, as a function of the captured
`old_tio.c_lflag`.  The code is straight-line around the loop: line 104 sets
the masked attributes, the loop runs with no further mode changes, and
line 163 — placed after the loop and before the `if (ret_val)` branch —
restores the captured attributes unconditionally.  `none` when the loop
never terminates on the given input. -/
def dialogTcsetattrTrace (oldLflag : Nat) (input : List Char) :
    Option (List Nat) :=
  match runLoop input [] with
  | .pending _ => none
  | _ => some [oldLflag &&& NEW_TERM_ATTRIBS_MASK, oldLflag]

/-- The eleven-digit input stream `"12345678901"` used to exercise the
append bound. -/
def ds11 : List Char := ['1', '2', '3', '4', '5', '6', '7', '8', '9', '0', '1']

/-! ## Helper lemmas -/

theorem isdigit_ne_esc {c : Char} (h : isdigit c = true) : c ≠ '\x1b' := by
  intro hc; subst hc; exact absurd h (by decide)

theorem isdigit_ne_newline {c : Char} (h : isdigit c = true) : c ≠ '\n' := by
  intro hc; subst hc; exact absurd h (by decide)

theorem isdigit_ne_d {c : Char} (h : isdigit c = true) : c ≠ 'd' := by
  intro hc; subst hc; exact absurd h (by decide)

/-- On a digit with room left, the loop body appends and sounds no alert. -/
theorem processChar_digit (buf : List Char) (c : Char) (hd : isdigit c = true)
    (hlen : buf.length < INPUT_BUFFER_MAX_LEN) :
    processChar buf c = .cont (buf ++ [c]) 0 := by
  unfold processChar
  rw [if_neg (isdigit_ne_esc hd)]
  simp [isdigit_ne_newline hd, hd, hlen]

/-- On a digit with the buffer at the code's capacity, the loop body keeps
the buffer and sounds one alert. -/
theorem processChar_digit_reject (buf : List Char) (c : Char)
    (hd : isdigit c = true) (hlen : ¬ buf.length < INPUT_BUFFER_MAX_LEN) :
    processChar buf c = .cont buf 1 := by
  unfold processChar
  rw [if_neg (isdigit_ne_esc hd)]
  simp [isdigit_ne_newline hd, hd, hlen]

/-- On a character that is not a digit, not `'d'`, not RETURN and not
ESCAPE, the loop body keeps the buffer and sounds one alert. -/
theorem processChar_illegal (buf : List Char) (c : Char)
    (hd : isdigit c = false) (hne : c ≠ 'd') (hnl : c ≠ '\n')
    (hesc : c ≠ '\x1b') :
    processChar buf c = .cont buf 1 := by
  unfold processChar
  rw [if_neg hesc]
  simp [hd, hne, hnl]

/-- Running the loop on a concatenated stream: if the first part leaves the
loop waiting with buffer `buf'`, the run continues into the second part. -/
theorem runLoop_append (a b buf buf' : List Char)
    (h : runLoop a buf = .pending buf') :
    runLoop (a ++ b) buf = runLoop b buf' := by
  induction a generalizing buf with
  | nil =>
    simp only [runLoop] at h
    cases h
    simp
  | cons c rest ih =>
    simp only [runLoop] at h ⊢
    cases hp : processChar buf c with
    | cont buf2 k => rw [hp] at h; simpa using ih buf2 h
    | confirm b2 => rw [hp] at h; cases h
    | cancel b2 => rw [hp] at h; cases h

/-- A stream of digits that fits in the code's capacity is appended in
order and leaves the loop waiting. -/
theorem runLoop_digits (l : List Char) (buf : List Char)
    (hd : ∀ c ∈ l, isdigit c = true)
    (hlen : buf.length + l.length ≤ INPUT_BUFFER_MAX_LEN) :
    runLoop l buf = .pending (buf ++ l) := by
  induction l generalizing buf with
  | nil => simp [runLoop]
  | cons c rest ih =>
    have hc : isdigit c = true := hd c (by simp)
    have hstep : processChar buf c = .cont (buf ++ [c]) 0 :=
      processChar_digit buf c hc (by simp at hlen; omega)
    simp only [runLoop, hstep]
    have := ih (buf ++ [c]) (fun x hx => hd x (by simp [hx]))
      (by simp at hlen ⊢; omega)
    simpa using this

/-! ## Claim theorems -/

/-- C1: evaluation of the code at the failing input.  The claim states that
the buffer length stays in `[0, 10]` and that a digit arriving at length 10
is rejected with an alert.  In the code the append guard at line 147 is
`n_input_chars < INPUT_BUFFER_MAX_LEN` with `INPUT_BUFFER_MAX_LEN = 11`, so
a digit arriving when the buffer already holds 10 digits is accepted with no
alert and the length reaches 11. -/
theorem eleventh_digit_accepted :
    processChar (List.replicate 10 '9') '1'
      = .cont (List.replicate 10 '9' ++ ['1']) 0 ∧
    (List.replicate 10 '9' ++ ['1']).length = 11 := by
  constructor
  · rfl
  · decide

/-- C2: evaluation of the code at the failing input.  The claim states that
on eleven digits followed by RETURN only the first ten digits are retained,
the eleventh alerts, and the outcome is `Confirmed(1234567890)`.  In the
code all eleven digits of `"12345678901"` are retained, and the confirmed
value is `atoi` of the eleven-digit string stored into a 32-bit int, which
is `-539222987`, not `1234567890`. -/
theorem eleven_digits_confirmed :
    runLoop (ds11 ++ ['\n']) [] = .confirmed ds11 ∧
    show_int_input_dialog (ds11 ++ ['\n']) = some (true, -539222987) ∧
    (-539222987 : Int) ≠ 1234567890 := by
  refine ⟨by rfl, by rfl, by decide⟩

/-- C3: evaluation of the code at the failing input.  The claim states that
every confirmed exit has `n_input_chars < INPUT_BUFFER_MAX_LEN`, making the
terminating write `input_buffer[n_input_chars] = 0` (line 166) in bounds.
On the input `"12345678901\n"` the loop reaches the confirmed exit with a
buffer of length `11 = INPUT_BUFFER_MAX_LEN`, so the write indexes one past
the end of the 11-byte array. -/
theorem confirmed_exit_len_eq_max :
    runLoop (ds11 ++ ['\n']) [] = .confirmed ds11 ∧
    ¬ ds11.length < INPUT_BUFFER_MAX_LEN := by
  refine ⟨by rfl, by decide⟩

/-- C4 counterexample: the claim states that for every digit sequence of
length at most 10, appending then converting yields exactly the positional
decimal value.  For the ten-digit sequence `"9999999999"` the appends all
succeed, but the conversion through a 32-bit `int` yields `1410065407`, not
`9999999999`. -/
theorem ten_nines_convert_wrong :
    runLoop (List.replicate 10 '9') [] = .pending (List.replicate 10 '9') ∧
    atoi32 (List.replicate 10 '9') ≠ (digitsVal (List.replicate 10 '9') : Int) := by
  refine ⟨by rfl, by decide⟩

/-- C4 (amended): for every sequence of digit characters of length at most
10 whose decimal value is at most `2147483647` (`INT32_MAX`), appending them
in order succeeds and converting yields exactly the positional decimal value
of the sequence; the empty sequence (covered by `l = []`) converts to 0. -/
theorem append_then_as_integer_exact (l : List Char)
    (hd : ∀ c ∈ l, isdigit c = true) (hlen : l.length ≤ 10)
    (hval : digitsVal l ≤ 2147483647) :
    runLoop l [] = .pending l ∧ atoi32 l = (digitsVal l : Int) := by
  constructor
  · have := runLoop_digits l [] hd
      (by simp only [List.length_nil, INPUT_BUFFER_MAX_LEN]; omega)
    simpa using this
  · have h32 : (2 : Nat) ^ 32 = 4294967296 := by norm_num
    have h31 : (2 : Nat) ^ 31 = 2147483648 := by norm_num
    have hmod : digitsVal l % 2 ^ 32 = digitsVal l :=
      Nat.mod_eq_of_lt (by omega)
    unfold atoi32
    rw [hmod, if_pos (by omega)]

/-- Witness for C4 at the sequence `"007"`: value 7. -/
theorem append_then_as_integer_exact_at_007 :
    runLoop ['0', '0', '7'] [] = .pending ['0', '0', '7'] ∧
    atoi32 ['0', '0', '7'] = (digitsVal ['0', '0', '7'] : Int) :=
  append_then_as_integer_exact ['0', '0', '7'] (by decide) (by decide) (by decide)

/-- C5: whenever the ESCAPE character is read — after any prefix that leaves
the loop still editing, with any buffer contents — the dialog exits through
the cancelled path and the outcome is `(false, 0)`: return value 0 and
`*input_ptr = 0`, never a value computed from the buffer. -/
theorem escape_always_cancels (pre rest buf : List Char)
    (h : runLoop pre [] = .pending buf) :
    show_int_input_dialog (pre ++ '\x1b' :: rest) = some (false, 0) := by
  unfold show_int_input_dialog
  rw [runLoop_append pre ('\x1b' :: rest) [] buf h]
  simp [runLoop, processChar]

/-- Witness for C5: digits `"12"` then ESCAPE yields `Cancelled`. -/
theorem escape_always_cancels_at_12 :
    show_int_input_dialog (['1', '2'] ++ '\x1b' :: []) = some (false, 0) :=
  escape_always_cancels ['1', '2'] [] ['1', '2'] (by decide)

/-- C6: RETURN read while the buffer is empty never leaves the editing loop
— the run on `'\n' :: rest` continues exactly as the run on `rest` with the
buffer still empty — and RETURN read while the buffer is non-empty breaks to
the confirmed exit at once, preserving the buffer, regardless of any later
input. -/
theorem confirm_transition (buf rest : List Char) :
    runLoop ('\n' :: rest) [] = runLoop rest [] ∧
    (buf ≠ [] → runLoop ('\n' :: rest) buf = .confirmed buf) := by
  constructor
  · have hp : processChar [] '\n' = .cont [] 2 := rfl
    simp only [runLoop, hp]
  · intro h
    cases buf with
    | nil => exact absurd rfl h
    | cons a t => rfl

/-- Witness for C6 at buffer `['1']`: RETURN confirms at once. -/
theorem confirm_transition_at_1 :
    runLoop ['\n'] ['1'] = .confirmed ['1'] :=
  (confirm_transition ['1'] []).2 (by decide)

/-- C7: delete `'d'` on an empty buffer keeps the buffer (hence its length)
and sounds one alert; delete on a non-empty buffer removes exactly the final
digit (`dropLast`) with no alert. -/
theorem delete_last_behaviour (buf : List Char) :
    processChar [] 'd' = .cont [] 1 ∧
    (buf ≠ [] → processChar buf 'd' = .cont buf.dropLast 0) := by
  refine ⟨rfl, ?_⟩
  intro h
  cases buf with
  | nil => exact absurd rfl h
  | cons a t => rfl

/-- Witness for C7 at buffer `['1','2']`: `'d'` removes the `'2'`. -/
theorem delete_last_behaviour_at_12 :
    processChar ['1', '2'] 'd' = .cont (['1', '2'].dropLast) 0 :=
  (delete_last_behaviour ['1', '2']).2 (by decide)

/-- C8: every rejected input event sounds an alert, keeps the buffer
unchanged, and leaves the loop running: (1) an illegal character (non-digit,
not `'d'`, not RETURN, not ESCAPE) for any buffer; (2) delete on an empty
buffer; (3) RETURN on an empty buffer; (4) a digit with the buffer at the
append bound.  Moreover the input stream `"a1b2\n"` yields `Confirmed(12)`:
`'a'` and `'b'` alert with no buffer change. -/
theorem rejected_events_alert_no_mutation :
    (∀ (buf : List Char) (c : Char) (rest : List Char),
        isdigit c = false → c ≠ 'd' → c ≠ '\n' → c ≠ '\x1b' →
        processChar buf c = .cont buf 1 ∧
        runLoop (c :: rest) buf = runLoop rest buf) ∧
    (∀ rest : List Char,
        processChar [] 'd' = .cont [] 1 ∧
        runLoop ('d' :: rest) [] = runLoop rest []) ∧
    (∀ rest : List Char,
        processChar [] '\n' = .cont [] 2 ∧
        runLoop ('\n' :: rest) [] = runLoop rest []) ∧
    (∀ (buf : List Char) (c : Char) (rest : List Char),
        isdigit c = true → ¬ buf.length < INPUT_BUFFER_MAX_LEN →
        processChar buf c = .cont buf 1 ∧
        runLoop (c :: rest) buf = runLoop rest buf) ∧
    show_int_input_dialog ['a', '1', 'b', '2', '\n'] = some (true, 12) := by
  refine ⟨?_, ?_, ?_, ?_, by rfl⟩
  · intro buf c rest hd hne hnl hesc
    have hp := processChar_illegal buf c hd hne hnl hesc
    exact ⟨hp, by simp only [runLoop, hp]⟩
  · intro rest
    have hp : processChar [] 'd' = .cont [] 1 := rfl
    exact ⟨hp, by simp only [runLoop, hp]⟩
  · intro rest
    have hp : processChar [] '\n' = .cont [] 2 := rfl
    exact ⟨hp, by simp only [runLoop, hp]⟩
  · intro buf c rest hd hlen
    have hp := processChar_digit_reject buf c hd hlen
    exact ⟨hp, by simp only [runLoop, hp]⟩

/-- Witness for C8: the illegal character `'x'` on buffer `['1']` and a
digit on a buffer at the bound both alert and leave the buffer unchanged. -/
theorem rejected_events_alert_no_mutation_at_x :
    processChar ['1'] 'x' = .cont ['1'] 1 ∧
    processChar (List.replicate 11 '9') '3' = .cont (List.replicate 11 '9') 1 :=
  ⟨(rejected_events_alert_no_mutation.1 ['1'] 'x' []
      (by decide) (by decide) (by decide) (by decide)).1,
   (rejected_events_alert_no_mutation.2.2.2.1 (List.replicate 11 '9') '3' []
      (by decide) (by decide)).1⟩

/-- C9: on every terminating invocation — through the confirmed exit or the
cancelled exit alike — the `tcsetattr` calls are exactly two: the entry call
with the masked attributes and then exactly one restoring call whose
argument is the captured prior `c_lflag`, performed before the function
returns. -/
theorem raw_mode_restored_once (old : Nat) (input b : List Char) :
    (runLoop input [] = .confirmed b →
      dialogTcsetattrTrace old input
        = some [old &&& NEW_TERM_ATTRIBS_MASK, old]) ∧
    (runLoop input [] = .cancelled b →
      dialogTcsetattrTrace old input
        = some [old &&& NEW_TERM_ATTRIBS_MASK, old]) := by
  constructor <;> intro h <;> unfold dialogTcsetattrTrace <;> rw [h]

/-- Witness for C9 at `old = 15`, input `"1\n"`: the trace is the masked
word `4` followed by the restored `15`. -/
theorem raw_mode_restored_once_at_15 :
    dialogTcsetattrTrace 15 ['1', '\n']
      = some [15 &&& NEW_TERM_ATTRIBS_MASK, 15] :=
  (raw_mode_restored_once 15 ['1', '\n'] ['1']).1 (by decide)

/-- C10: RETURN read on an empty buffer sounds the alert twice in that one
iteration — once at the empty-confirm check (line 127) and once more in the
illegal-character branch (line 144), which `'\n'` also reaches — and the
loop then continues with the buffer still empty. -/
theorem empty_confirm_double_alert (rest : List Char) :
    processChar [] '\n' = .cont [] 2 ∧
    runLoop ('\n' :: rest) [] = runLoop rest [] := by
  refine ⟨rfl, ?_⟩
  have hp : processChar [] '\n' = .cont [] 2 := rfl
  simp only [runLoop, hp]

end InputDialog
